import Mathlib

/-!
Shallow embedding of the himawari satellite-image fetcher (himawari.go):
the tile grid, the canvas and tile blitting, the sequential and the pooled
assembly paths of Image, chunk URL formatting, and the level / worker-count
normalization, together with theorems settling the behavioural claims.
-/

namespace Himawari

/-- Width of each chunk, Go constant Width = 550. -/
def Width : Nat := 550

/-- Height of each chunk, Go constant Height = Width. -/
def Height : Nat := Width

/-- Go constant DefaultLevel = 4. -/
def DefaultLevel : Int := 4

/-- Pixels are abstracted as natural numbers; 0 is the zero value of a
pixel in a freshly allocated RGBA image. -/
abbrev Pixel := Nat

/-- Fetch errors are opaque to the assembler (it never branches on the
error kind), so an abstract code suffices. -/
abbrev Err := Nat

/-- A Go image.Image restricted to what the program uses: bounds of the
form Rect(0, 0, width, height) plus a pixel lookup. -/
structure GoImage where
  width : Nat
  height : Nat
  pix : Nat → Nat → Pixel

/-- image.NewRGBA(image.Rect(0, 0, w, h)): all pixels start at zero. -/
def newRGBA (w h : Nat) : GoImage := ⟨w, h, fun _ _ => 0⟩

/-- draw.Draw(canvas, image.Rect(x*Width, y*Height, (x+1)*Width, (y+1)*Height),
img, image.ZP, draw.Src): overwrite the rectangle of grid cell (x, y) with
img sampled from its zero point.  (Per the TileSource contract a fetched
tile is exactly Width x Height, so the source is never exhausted.) -/
def drawTile (canvas : GoImage) (x y : Nat) (img : GoImage) : GoImage :=
  { canvas with
    pix := fun px py =>
      if x * Width ≤ px ∧ px < (x + 1) * Width ∧ y * Height ≤ py ∧ py < (y + 1) * Height then
        img.pix (px - x * Width) (py - y * Height)
      else
        canvas.pix px py }

/-- The rectangle of grid cell c of the canvas holds exactly the raster img. -/
def cellIs (cv : GoImage) (c : Nat × Nat) (img : GoImage) : Prop :=
  ∀ px py, px < Width → py < Height →
    cv.pix (c.1 * Width + px) (c.2 * Height + py) = img.pix px py

theorem drawTile_width (canvas : GoImage) (x y : Nat) (img : GoImage) :
    (drawTile canvas x y img).width = canvas.width := rfl

theorem drawTile_height (canvas : GoImage) (x y : Nat) (img : GoImage) :
    (drawTile canvas x y img).height = canvas.height := rfl

/-- Blitting a tile fills its own cell. -/
theorem drawTile_self (canvas : GoImage) (x y : Nat) (img : GoImage) :
    cellIs (drawTile canvas x y img) (x, y) img := by
  intro px py hx hy
  simp only [Width, Height] at hx hy
  simp only [cellIs, drawTile, Width, Height]
  rw [if_pos (by omega)]
  congr 1 <;> omega

/-- Blitting a tile into a different cell leaves another cell untouched:
distinct grid cells occupy disjoint rectangles of the canvas. -/
theorem drawTile_other (canvas : GoImage) (x y : Nat) (img : GoImage)
    (c : Nat × Nat) (img0 : GoImage) (hne : (x, y) ≠ c)
    (h : cellIs canvas c img0) : cellIs (drawTile canvas x y img) c img0 := by
  intro px py hx hy
  have hxy : x ≠ c.1 ∨ y ≠ c.2 := by
    by_contra hcon
    push_neg at hcon
    exact hne (by rw [hcon.1, hcon.2])
  have hgoal := h px py hx hy
  simp only [Width, Height] at hx hy
  simp only [cellIs, drawTile, Width, Height]
  rw [if_neg (by rcases hxy with hxx | hyy <;> omega)]
  exact hgoal

/-- The grid in the order the producer emits it: y outer, x inner
(for y := 0; y < level; y++ \x7b for x := 0; x < level; x++ \x7b ... -/
def rowMajor (n : Nat) : List (Nat × Nat) :=
  (List.range n).flatMap fun y => (List.range n).map fun x => (x, y)

theorem mem_rowMajor {n : Nat} {c : Nat × Nat} :
    c ∈ rowMajor n ↔ c.1 < n ∧ c.2 < n := by
  cases c with
  | mk x y =>
    simp only [rowMajor, List.mem_flatMap, List.mem_map, List.mem_range, Prod.mk.injEq]
    constructor
    · rintro ⟨y', hy', x', hx', hxx, hyy⟩
      subst hxx; subst hyy
      exact ⟨hx', hy'⟩
    · rintro ⟨hx, hy⟩
      exact ⟨y, hy, x, hx, rfl, rfl⟩

theorem nodup_rowMajor (n : Nat) : (rowMajor n).Nodup := by
  rw [rowMajor, List.nodup_flatMap]
  constructor
  · intro y _
    exact (List.nodup_range n).map fun a b hab => by
      simpa using congrArg Prod.fst hab
  · rw [List.pairwise_iff_get]
    intro i j hij
    simp only [Function.onFun, List.disjoint_left]
    intro c hc hc'
    simp only [List.mem_map, List.mem_range] at hc hc'
    rcases hc with ⟨x, _, hx⟩
    rcases hc' with ⟨x', _, hx'⟩
    have h2 : c.2 = (List.range n).get i := by rw [← hx]
    have h2' : c.2 = (List.range n).get j := by rw [← hx']
    have : (List.range n).get i = (List.range n).get j := by rw [← h2, ← h2']
    have := (List.nodup_range n).get_inj_iff.mp this
    exact absurd (Fin.val_eq_of_eq this) (Nat.ne_of_lt hij)

/-- The sequential path of Image (workers == 1): iterate the remaining
coordinates in order, fetching and blitting each tile in turn; the first
fetch failure returns (nil, err) at once.  The final component is a ghost
log of the coordinates handed to the fetcher, in order. -/
def seqGo (f : Nat → Nat → Except Err GoImage) :
    List (Nat × Nat) → GoImage → List (Nat × Nat) →
    (Option GoImage × Option Err) × List (Nat × Nat)
  | [], canvas, log => ((some canvas, none), log)
  | c :: rest, canvas, log =>
    match f c.1 c.2 with
    | .error e => ((none, some e), log ++ [c])
    | .ok img => seqGo f rest (drawTile canvas c.1 c.2 img) (log ++ [c])

/-- If every coordinate in the list fetches successfully, the sequential
path completes without error. -/
theorem seq_ok (f : Nat → Nat → Except Err GoImage) (coords : List (Nat × Nat)) :
    ∀ (canvas : GoImage) (log : List (Nat × Nat)),
      (∀ c ∈ coords, ∃ img, f c.1 c.2 = .ok img) →
      (seqGo f coords canvas log).1.2 = none := by
  induction coords with
  | nil => intro canvas log _; rfl
  | cons c rest ih =>
    intro canvas log hall
    obtain ⟨img, himg⟩ := hall c (List.mem_cons_self _ _)
    simp only [seqGo, himg]
    exact ih _ _ fun c' hc' => hall c' (List.mem_cons_of_mem _ hc')

/-- A successful sequential run visits every coordinate, logs them all in
order, and produces a canvas of the same bounds whose every visited cell
holds the fetched tile; cells outside the visited list are untouched. -/
theorem seq_none_spec (f : Nat → Nat → Except Err GoImage) (coords : List (Nat × Nat)) :
    ∀ (canvas : GoImage) (log : List (Nat × Nat)),
      coords.Nodup →
      (seqGo f coords canvas log).1.2 = none →
      (seqGo f coords canvas log).2 = log ++ coords ∧
      ∃ cv, (seqGo f coords canvas log).1.1 = some cv ∧
        cv.width = canvas.width ∧ cv.height = canvas.height ∧
        (∀ c ∈ coords, ∃ img, f c.1 c.2 = .ok img ∧ cellIs cv c img) ∧
        (∀ c img0, c ∉ coords → cellIs canvas c img0 → cellIs cv c img0) := by
  induction coords with
  | nil =>
    intro canvas log _ _
    refine ⟨by simp [seqGo], canvas, rfl, rfl, rfl, ?_, ?_⟩
    · intro c hc; cases hc
    · intro c img0 _ h; exact h
  | cons c rest ih =>
    intro canvas log hnd hnone
    have hndr : rest.Nodup := (List.nodup_cons.mp hnd).2
    have hcr : c ∉ rest := (List.nodup_cons.mp hnd).1
    cases himg : f c.1 c.2 with
    | error e =>
      exfalso
      simp only [seqGo, himg] at hnone
      cases hnone
    | ok img =>
      simp only [seqGo, himg] at hnone ⊢
      obtain ⟨hlog, cv, hcv, hw, hh, hcells, hpres⟩ :=
        ih (drawTile canvas c.1 c.2 img) (log ++ [c]) hndr hnone
      refine ⟨by rw [hlog]; simp, cv, hcv, by rw [hw]; rfl, by rw [hh]; rfl, ?_, ?_⟩
      · intro c' hc'
        rcases List.mem_cons.mp hc' with heq | hmem
        · subst heq
          refine ⟨img, himg, hpres c' img hcr ?_⟩
          have := drawTile_self canvas c'.1 c'.2 img
          simpa using this
        · exact hcells c' hmem
      · intro c' img0 hnc' h0
        have hne : c' ≠ c := fun hh => hnc' (hh ▸ List.mem_cons_self _ _)
        have hnr : c' ∉ rest := fun hh => hnc' (List.mem_cons_of_mem _ hh)
        refine hpres c' img0 hnr ?_
        refine drawTile_other canvas c.1 c.2 img c' img0 ?_ h0
        intro hh
        exact hne (by rw [← hh])

/-- A failing sequential run stops at the first failing coordinate: the
log is exactly the row prefix up to and including it, every earlier
coordinate fetched successfully, the canvas returned is nil, and the
error is that coordinate's error. -/
theorem seq_err_spec (f : Nat → Nat → Except Err GoImage) (coords : List (Nat × Nat)) :
    ∀ (canvas : GoImage) (log : List (Nat × Nat)) (e : Err),
      (seqGo f coords canvas log).1.2 = some e →
      ∃ pre c post, coords = pre ++ c :: post ∧
        (∀ c' ∈ pre, ∃ img, f c'.1 c'.2 = .ok img) ∧
        f c.1 c.2 = .error e ∧
        (seqGo f coords canvas log).1.1 = none ∧
        (seqGo f coords canvas log).2 = log ++ pre ++ [c] := by
  induction coords with
  | nil => intro canvas log e h; cases h
  | cons c rest ih =>
    intro canvas log e hsome
    cases himg : f c.1 c.2 with
    | error e' =>
      simp only [seqGo, himg] at hsome ⊢
      cases hsome
      refine ⟨[], c, rest, by simp, ?_, ?_, ?_, ?_⟩
      · intro c' hc'; cases hc'
      · exact himg
      · trivial
      · simp
    | ok img =>
      simp only [seqGo, himg] at hsome ⊢
      obtain ⟨pre, c0, post, hsplit, hpre, herr, hnil, hlog⟩ :=
        ih (drawTile canvas c.1 c.2 img) (log ++ [c]) e hsome
      refine ⟨c :: pre, c0, post, by rw [hsplit]; simp, ?_, herr, hnil, ?_⟩
      · intro c' hc'
        rcases List.mem_cons.mp hc' with heq | hmem
        · exact ⟨img, heq ▸ himg⟩
        · exact hpre c' hmem
      · rw [hlog]; simp

/-- If the sequential path returns no error, every listed coordinate
fetched successfully. -/
theorem seq_none_all_ok (f : Nat → Nat → Except Err GoImage) (coords : List (Nat × Nat)) :
    ∀ (canvas : GoImage) (log : List (Nat × Nat)),
      (seqGo f coords canvas log).1.2 = none →
      ∀ c ∈ coords, ∃ img, f c.1 c.2 = .ok img := by
  induction coords with
  | nil => intro canvas log _ c hc; cases hc
  | cons c rest ih =>
    intro canvas log hnone c' hc'
    cases himg : f c.1 c.2 with
    | error e =>
      exfalso
      simp only [seqGo, himg] at hnone
      cases hnone
    | ok img =>
      simp only [seqGo, himg] at hnone
      rcases List.mem_cons.mp hc' with heq | hmem
      · exact ⟨img, heq ▸ himg⟩
      · exact ih _ _ hnone c' hmem

/-- Sequential run when exactly one coordinate of the list fails: the run
returns a nil canvas together with precisely that coordinate's error. -/
theorem seq_single_err (f : Nat → Nat → Except Err GoImage) (coords : List (Nat × Nat))
    (canvas : GoImage) (log : List (Nat × Nat)) (c0 : Nat × Nat) (e0 : Err)
    (hmem : c0 ∈ coords) (hfail : f c0.1 c0.2 = .error e0)
    (hok : ∀ c ∈ coords, c ≠ c0 → ∃ img, f c.1 c.2 = .ok img) :
    (seqGo f coords canvas log).1 = (none, some e0) := by
  cases hres : (seqGo f coords canvas log).1.2 with
  | none =>
    exfalso
    obtain ⟨img, himg⟩ := seq_none_all_ok f coords canvas log hres c0 hmem
    rw [hfail] at himg
    cases himg
  | some e =>
    obtain ⟨pre, c, post, hsplit, hpre, herr, hnil, _⟩ :=
      seq_err_spec f coords canvas log e hres
    have hc : c = c0 := by
      by_contra hne
      obtain ⟨img, himg⟩ := hok c (by rw [hsplit]; simp) hne
      rw [himg] at herr
      cases herr
    subst hc
    rw [hfail] at herr
    cases herr
    exact Prod.ext hnil hres

/-- Status of one worker goroutine of the pooled path: waiting to receive
from the chunks channel, fetching the coordinate it received, or returned
(wg.Done has run). -/
inductive WStatus
  | idle
  | busy (c : Nat × Nat)
  | done
deriving DecidableEq

/-- Position of the producer (the main goroutine of Image): still inside
the dispatch loop, waiting on wg.Wait after close(chunks), or returned
with the given error value (the returned canvas is the shared canvas of
the state at return time). -/
inductive Phase
  | sending
  | joining
  | returned (res : Option Err)
deriving DecidableEq

/-- State of one execution of the pooled path of Image.  The chunks
channel is unbuffered, so a send is modelled as a rendezvous with an idle
worker; errc is a buffered FIFO channel.  dispatched and errLog are ghost
logs: the coordinates handed to the fetcher and the errors reported, in
order. -/
structure PoolState where
  toSend : List (Nat × Nat)
  closed : Bool
  workers : Nat → WStatus
  errc : List Err
  errLog : List Err
  canvas : GoImage
  dispatched : List (Nat × Nat)
  phase : Phase

/-- Interleaving semantics of the pooled path of Image, one transition per
suspension point of the Go code.  f is the fetch of one chunk (Chunk with
the time and the zoom level fixed). -/
inductive Step (f : Nat → Nat → Except Err GoImage) : PoolState → PoolState → Prop
  | send (s : PoolState) (c : Nat × Nat) (rest : List (Nat × Nat)) (i : Nat) :
      s.phase = .sending → s.toSend = c :: rest → s.workers i = .idle →
      Step f s { s with
        toSend := rest,
        workers := Function.update s.workers i (.busy c),
        dispatched := s.dispatched ++ [c] }
  | earlyExit (s : PoolState) (c : Nat × Nat) (rest : List (Nat × Nat)) (e : Err) (es : List Err) :
      s.phase = .sending → s.toSend = c :: rest → s.errc = e :: es →
      Step f s { s with errc := es, closed := true, phase := .returned (some e) }
  | closeChunks (s : PoolState) :
      s.phase = .sending → s.toSend = [] →
      Step f s { s with closed := true, phase := .joining }
  | joinReturn (s : PoolState) :
      s.phase = .joining → (∀ i, s.workers i = .done) →
      Step f s { s with phase := .returned s.errc.head? }
  | fetchOk (s : PoolState) (i : Nat) (c : Nat × Nat) (img : GoImage) :
      s.workers i = .busy c → f c.1 c.2 = .ok img →
      Step f s { s with
        canvas := drawTile s.canvas c.1 c.2 img,
        workers := Function.update s.workers i .idle }
  | fetchErr (s : PoolState) (i : Nat) (c : Nat × Nat) (e : Err) :
      s.workers i = .busy c → f c.1 c.2 = .error e →
      Step f s { s with
        errc := s.errc ++ [e],
        errLog := s.errLog ++ [e],
        workers := Function.update s.workers i .done }
  | exitClosed (s : PoolState) (i : Nat) :
      s.workers i = .idle → s.closed = true →
      Step f s { s with workers := Function.update s.workers i .done }

/-- Start state of the pooled path: the whole grid still to dispatch, w
idle workers (indices at and beyond w stand for no goroutine and are
born done), empty error channel, freshly allocated canvas. -/
def poolInit (n w : Nat) : PoolState :=
  { toSend := rowMajor n,
    closed := false,
    workers := fun i => if i < w then .idle else .done,
    errc := [],
    errLog := [],
    canvas := newRGBA (n * Width) (n * Height),
    dispatched := [],
    phase := .sending }

/-- Reachable states of one pooled invocation with grid side n and pool
size w. -/
def Reach (f : Nat → Nat → Except Err GoImage) (n w : Nat) (s : PoolState) : Prop :=
  Relation.ReflTransGen (Step f) (poolInit n w) s

/-- Inductive invariant of the pooled path. -/
structure Inv (f : Nat → Nat → Except Err GoImage) (n : Nat) (s : PoolState) : Prop where
  split : s.dispatched ++ s.toSend = rowMajor n
  busyDisp : ∀ i c, s.workers i = .busy c → c ∈ s.dispatched
  errElems : ∀ e ∈ s.errc, ∃ c, c ∈ s.dispatched ∧ f c.1 c.2 = .error e
  errcLog : s.phase = .sending ∨ s.phase = .joining → s.errc = s.errLog
  dispStatus : s.phase = .sending ∨ s.phase = .joining → ∀ c ∈ s.dispatched,
      (∃ i, s.workers i = .busy c) ∨
      (∃ img, f c.1 c.2 = .ok img ∧ cellIs s.canvas c img) ∨
      (∃ e, f c.1 c.2 = .error e ∧ e ∈ s.errc)
  joinEmpty : s.phase = .joining → s.toSend = []
  dims : s.canvas.width = n * Width ∧ s.canvas.height = n * Height
  retSome : ∀ e, s.phase = .returned (some e) →
      s.errLog.head? = some e ∧ ∃ c, c ∈ rowMajor n ∧ f c.1 c.2 = .error e
  retNone : s.phase = .returned none →
      s.toSend = [] ∧ ∀ c ∈ rowMajor n, ∃ img, f c.1 c.2 = .ok img ∧ cellIs s.canvas c img
  retEarly : ∀ res, s.phase = .returned res → s.toSend ≠ [] → res.isSome
  retDone : ∀ res, s.phase = .returned res → s.toSend = [] → ∀ i, s.workers i = .done

theorem inv_init (f : Nat → Nat → Except Err GoImage) (n w : Nat) :
    Inv f n (poolInit n w) := by
  constructor
  · simp [poolInit]
  · intro i c h
    simp only [poolInit] at h
    split at h <;> cases h
  · intro e he; cases he
  · intro _; rfl
  · intro _ c hc; cases hc
  · intro h; cases h
  · exact ⟨rfl, rfl⟩
  · intro e h; cases h
  · intro h; cases h
  · intro res h; cases h
  · intro res h; cases h

theorem head?_append_some {α : Type} {l l' : List α} {a : α}
    (h : l.head? = some a) : (l ++ l').head? = some a := by
  cases l with
  | nil => exact absurd h (by simp)
  | cons b t => simpa using h

set_option maxHeartbeats 1000000 in
theorem inv_step (f : Nat → Nat → Except Err GoImage) (n : Nat) (s s' : PoolState)
    (hinv : Inv f n s) (hstep : Step f s s') : Inv f n s' := by
  obtain ⟨hsplit, hbusy, herrE, herrL, hdisp, hjoin, hdims, hretS, hretN, hretE, hretD⟩ := hinv
  cases hstep with
  | send c rest i hph hts hw =>
    refine ⟨?_, ?_, ?_, ?_, ?_, ?_, ?_, ?_, ?_, ?_, ?_⟩
    · show s.dispatched ++ [c] ++ rest = rowMajor n
      rw [List.append_assoc, List.singleton_append, ← hts]
      exact hsplit
    · intro j c' h
      by_cases hji : j = i
      · subst hji
        have h2 : WStatus.busy c = WStatus.busy c' := (Function.update_same j _ _).symm.trans h
        cases h2
        exact List.mem_append_right _ (List.mem_singleton_self c)
      · exact List.mem_append_left _ (hbusy j c' ((Function.update_noteq hji _ _).symm.trans h))
    · intro e he
      obtain ⟨c0, hc0, he0⟩ := herrE e he
      exact ⟨c0, List.mem_append_left _ hc0, he0⟩
    · intro _
      exact herrL (Or.inl hph)
    · intro _ c' hc'
      rcases List.mem_append.mp hc' with hA | hB
      · rcases hdisp (Or.inl hph) c' hA with ⟨j, hj⟩ | hdrawn | herr2
        · have hji : j ≠ i := by
            intro hh
            subst hh
            rw [hw] at hj
            exact WStatus.noConfusion hj
          exact Or.inl ⟨j, (Function.update_noteq hji _ _).trans hj⟩
        · exact Or.inr (Or.inl hdrawn)
        · exact Or.inr (Or.inr herr2)
      · have hc : c' = c := List.mem_singleton.mp hB
        subst hc
        exact Or.inl ⟨i, Function.update_same i _ _⟩
    · intro h
      exact Phase.noConfusion (hph.symm.trans h)
    · exact hdims
    · intro e h
      exact absurd (hph.symm.trans h) (by simp)
    · intro h
      exact absurd (hph.symm.trans h) (by simp)
    · intro res h
      exact absurd (hph.symm.trans h) (by simp)
    · intro res h
      exact absurd (hph.symm.trans h) (by simp)
  | earlyExit c rest e es hph hts herrc =>
    refine ⟨hsplit, hbusy, ?_, ?_, ?_, ?_, hdims, ?_, ?_, ?_, ?_⟩
    · intro e' he'
      exact herrE e' (by rw [herrc]; exact List.mem_cons_of_mem _ he')
    · intro h
      rcases h with h | h <;> exact Phase.noConfusion h
    · intro h
      rcases h with h | h <;> exact Phase.noConfusion h
    · intro h
      exact Phase.noConfusion h
    · intro e' h
      have he' : e = e' := by
        injection h with h2
        injection h2
      subst he'
      constructor
      · have hlog : s.errLog = e :: es := by rw [← herrL (Or.inl hph), herrc]
        rw [hlog]
        rfl
      · obtain ⟨c0, hc0, he0⟩ := herrE e (by rw [herrc]; exact List.mem_cons_self _ _)
        exact ⟨c0, hsplit ▸ List.mem_append_left _ hc0, he0⟩
    · intro h
      injection h with h2
      exact Option.noConfusion h2
    · intro res h _
      injection h with h2
      rw [← h2]
      rfl
    · intro res h hts'
      exact List.noConfusion (hts.symm.trans hts')
  | closeChunks hph hts =>
    refine ⟨hsplit, hbusy, herrE, ?_, ?_, ?_, hdims, ?_, ?_, ?_, ?_⟩
    · intro _
      exact herrL (Or.inl hph)
    · intro _ c' hc'
      exact hdisp (Or.inl hph) c' hc'
    · intro _
      exact hts
    · intro e h
      exact Phase.noConfusion h
    · intro h
      exact Phase.noConfusion h
    · intro res h
      exact Phase.noConfusion h
    · intro res h
      exact Phase.noConfusion h
  | joinReturn hph hall =>
    refine ⟨hsplit, hbusy, herrE, ?_, ?_, ?_, hdims, ?_, ?_, ?_, ?_⟩
    · intro h
      rcases h with h | h <;> exact Phase.noConfusion h
    · intro h
      rcases h with h | h <;> exact Phase.noConfusion h
    · intro h
      exact Phase.noConfusion h
    · intro e h
      have hhead : s.errc.head? = some e := by
        injection h
      constructor
      · rw [← herrL (Or.inr hph)]
        exact hhead
      · have hmem : e ∈ s.errc := by
          cases herrc : s.errc with
          | nil => rw [herrc] at hhead; exact Option.noConfusion hhead
          | cons a t =>
            rw [herrc] at hhead
            have : a = e := by injection hhead
            rw [← this]
            exact List.mem_cons_self _ _
        obtain ⟨c0, hc0, he0⟩ := herrE e hmem
        exact ⟨c0, hsplit ▸ List.mem_append_left _ hc0, he0⟩
    · intro h
      have hhead : s.errc.head? = none := by injection h
      have herrc : s.errc = [] := by
        cases hc : s.errc with
        | nil => rfl
        | cons a t => rw [hc] at hhead; exact Option.noConfusion hhead
      have hts : s.toSend = [] := hjoin hph
      refine ⟨hts, ?_⟩
      intro c hc
      have hcd : c ∈ s.dispatched := by
        have : c ∈ s.dispatched ++ s.toSend := hsplit ▸ hc
        rw [hts] at this
        simpa using this
      rcases hdisp (Or.inr hph) c hcd with ⟨i, hi⟩ | hdrawn | ⟨e, _, he⟩
      · exact absurd ((hall i).symm.trans hi) (by simp)
      · exact hdrawn
      · rw [herrc] at he
        cases he
    · intro res h hne
      exact absurd (hjoin hph) hne
    · intro res h _ i
      exact hall i
  | fetchOk i c img hwi hok =>
    refine ⟨hsplit, ?_, herrE, ?_, ?_, ?_, hdims, ?_, ?_, ?_, ?_⟩
    · intro j c' h
      by_cases hji : j = i
      · subst hji
        exact WStatus.noConfusion ((Function.update_same j _ _).symm.trans h)
      · exact hbusy j c' ((Function.update_noteq hji _ _).symm.trans h)
    · intro h
      exact herrL h
    · intro hph c' hc'
      rcases hdisp hph c' hc' with ⟨j, hj⟩ | ⟨img0, h1, h2⟩ | ⟨e, h1, h2⟩
      · by_cases hji : j = i
        · subst hji
          have hcc : c' = c := by
            have := (hwi.symm.trans hj)
            injection this with h3
            exact h3.symm
          subst hcc
          refine Or.inr (Or.inl ⟨img, hok, ?_⟩)
          have := drawTile_self s.canvas c'.1 c'.2 img
          rwa [Prod.mk.eta] at this
        · exact Or.inl ⟨j, (Function.update_noteq hji _ _).trans hj⟩
      · by_cases hcc : c' = c
        · subst hcc
          have himg : img0 = img := by
            have := h1.symm.trans hok
            injection this
          subst himg
          refine Or.inr (Or.inl ⟨img0, h1, ?_⟩)
          have := drawTile_self s.canvas c'.1 c'.2 img0
          rwa [Prod.mk.eta] at this
        · refine Or.inr (Or.inl ⟨img0, h1, ?_⟩)
          refine drawTile_other s.canvas c.1 c.2 img c' img0 ?_ h2
          rw [Prod.mk.eta]
          exact fun hh => hcc hh.symm
      · by_cases hcc : c' = c
        · subst hcc
          rw [h1] at hok
          exact Except.noConfusion hok
        · exact Or.inr (Or.inr ⟨e, h1, h2⟩)
    · intro h
      exact hjoin h
    · intro e h
      exact hretS e h
    · intro h
      have hts0 := (hretN h).1
      exact absurd ((hretD none h hts0 i).symm.trans hwi) (by simp)
    · intro res h hne
      exact hretE res h hne
    · intro res h hts0 j
      exact absurd ((hretD res h hts0 i).symm.trans hwi) (by simp)
  | fetchErr i c e hwi herr =>
    refine ⟨hsplit, ?_, ?_, ?_, ?_, ?_, hdims, ?_, ?_, ?_, ?_⟩
    · intro j c' h
      by_cases hji : j = i
      · subst hji
        exact WStatus.noConfusion ((Function.update_same j _ _).symm.trans h)
      · exact hbusy j c' ((Function.update_noteq hji _ _).symm.trans h)
    · intro e' he'
      rcases List.mem_append.mp he' with hA | hB
      · exact herrE e' hA
      · have : e' = e := List.mem_singleton.mp hB
        subst this
        exact ⟨c, hbusy i c hwi, herr⟩
    · intro h
      rw [herrL h]
    · intro hph c' hc'
      rcases hdisp hph c' hc' with ⟨j, hj⟩ | hdrawn | ⟨e0, h1, h2⟩
      · by_cases hji : j = i
        · subst hji
          have hcc : c' = c := by
            have := (hwi.symm.trans hj)
            injection this with h3
            exact h3.symm
          subst hcc
          refine Or.inr (Or.inr ⟨e, herr, ?_⟩)
          exact List.mem_append_right _ (List.mem_singleton_self e)
        · exact Or.inl ⟨j, (Function.update_noteq hji _ _).trans hj⟩
      · exact Or.inr (Or.inl hdrawn)
      · exact Or.inr (Or.inr ⟨e0, h1, List.mem_append_left _ h2⟩)
    · intro h
      exact hjoin h
    · intro e' h
      obtain ⟨hhead, hex⟩ := hretS e' h
      exact ⟨head?_append_some hhead, hex⟩
    · intro h
      have hts0 := (hretN h).1
      exact absurd ((hretD none h hts0 i).symm.trans hwi) (by simp)
    · intro res h hne
      exact hretE res h hne
    · intro res h hts0 j
      exact absurd ((hretD res h hts0 i).symm.trans hwi) (by simp)
  | exitClosed i hwi hcl =>
    refine ⟨hsplit, ?_, herrE, ?_, ?_, ?_, hdims, ?_, ?_, ?_, ?_⟩
    · intro j c' h
      by_cases hji : j = i
      · subst hji
        exact WStatus.noConfusion ((Function.update_same j _ _).symm.trans h)
      · exact hbusy j c' ((Function.update_noteq hji _ _).symm.trans h)
    · intro h
      exact herrL h
    · intro hph c' hc'
      rcases hdisp hph c' hc' with ⟨j, hj⟩ | hdrawn | herr2
      · have hji : j ≠ i := by
          intro hh
          subst hh
          rw [hwi] at hj
          exact WStatus.noConfusion hj
        exact Or.inl ⟨j, (Function.update_noteq hji _ _).trans hj⟩
      · exact Or.inr (Or.inl hdrawn)
      · exact Or.inr (Or.inr herr2)
    · intro h
      exact hjoin h
    · intro e h
      exact hretS e h
    · intro h
      have hts0 := (hretN h).1
      exact absurd ((hretD none h hts0 i).symm.trans hwi) (by simp)
    · intro res h hne
      exact hretE res h hne
    · intro res h hts0 j
      exact absurd ((hretD res h hts0 i).symm.trans hwi) (by simp)

/-- Every reachable state of the pooled path satisfies the invariant. -/
theorem reach_inv (f : Nat → Nat → Except Err GoImage) (n w : Nat) (s : PoolState)
    (hre : Reach f n w s) : Inv f n s := by
  induction hre with
  | refl => exact inv_init f n w
  | tail h1 h2 ih => exact inv_step f n _ _ ih h2

/-- Go: if level <= 0, level = DefaultLevel. -/
def normLevel (level : Int) : Int :=
  if level ≤ 0 then DefaultLevel else level

/-- Go: workers := Workers; if workers <= 0 workers = 1; else if
total := level*level; workers > total workers = total. -/
def normWorkers (workers level : Int) : Int :=
  if workers ≤ 0 then 1
  else if workers > level * level then level * level
  else workers

/-- The Go pair (image.Image, error) returned by Chunk: on success the
decoded image and a nil error, on failure a nil image and the error. -/
def chunkPair : Except Err GoImage → Option GoImage × Option Err
  | .ok img => (some img, none)
  | .error e => (none, some e)

/-- The observable behaviour of one call Image(t, level): rt.1 is the Go
return pair (image, error) and rt.2 the ghost list of grid coordinates
handed to the chunk fetcher, in order.  F abstracts Chunk(t, level, x, y)
with t fixed: it maps the (already normalized) level and a coordinate to
the decoded tile or an error.  The pooled branch relates rt to any
schedule of the worker pool that has reached its return statement. -/
def ImageRun (F : Int → Nat → Nat → Except Err GoImage) (level workers : Int)
    (rt : (Option GoImage × Option Err) × List (Nat × Nat)) : Prop :=
  if normLevel level = 1 then
    rt = (chunkPair (F (normLevel level) 0 0), [(0, 0)])
  else if normWorkers workers (normLevel level) = 1 then
    rt = seqGo (F (normLevel level)) (rowMajor (normLevel level).toNat)
      (newRGBA ((normLevel level).toNat * Width) ((normLevel level).toNat * Height)) []
  else
    ∃ s, Reach (F (normLevel level)) (normLevel level).toNat
        (normWorkers workers (normLevel level)).toNat s ∧
      s.phase = .returned rt.1.2 ∧ rt.1.1 = some s.canvas ∧ rt.2 = s.dispatched

/-- The observable behaviour of LatestImage(level, offsetTime): normalize
the level, resolve the latest timestamp (latest), optionally apply the
timezone offset correction (off abstracts TimeWithOffset), then run Image.
G abstracts Chunk with the time argument explicit. -/
def LatestImageRun (G : Int → Int → Nat → Nat → Except Err GoImage)
    (latest : Except Err Int) (off : Int → Int) (level workers : Int) (offsetTime : Bool)
    (rt : (Option GoImage × Option Err) × List (Nat × Nat)) : Prop :=
  match latest with
  | .error e => rt = ((none, some e), [])
  | .ok t0 => ImageRun (G (if offsetTime then off t0 else t0)) (normLevel level) workers rt

/-- A Go time.Time as the program observes it: the absolute instant in
seconds since the Unix epoch plus the zone offset (seconds east of UTC)
of the location attached to the value.  Formatting reads the civil
fields of unix + offset; t.UTC() keeps the instant and zeroes the offset. -/
structure GoTime where
  unix : Int
  offset : Int

/-- t.UTC(): same instant, UTC location. -/
def GoTime.utc (t : GoTime) : GoTime := ⟨t.unix, 0⟩

/-- Proleptic-Gregorian civil date (year, month, day) of a day count
relative to 1970-01-01. -/
def civilFromDays (z0 : Int) : Int × Int × Int :=
  let z := z0 + 719468
  let era := z.ediv 146097
  let doe := z - era * 146097
  let yoe := (doe - doe.ediv 1460 + doe.ediv 36524 - doe.ediv 146096).ediv 365
  let y := yoe + era * 400
  let doy := doe - (365 * yoe + yoe.ediv 4 - yoe.ediv 100)
  let mp := (5 * doy + 2).ediv 153
  let d := doy - (153 * mp + 2).ediv 5 + 1
  let m := mp + (if mp < 10 then 3 else -9)
  (y + (if m ≤ 2 then 1 else 0), m, d)

/-- Decimal rendering zero-padded on the left to the given width, as Go's
time formatter emits date and time fields. -/
def padInt (w : Nat) (x : Int) : String :=
  let s := toString x
  if s.length < w then String.mk (List.replicate (w - s.length) '0') ++ s else s

/-- t.Format("2006/01/02/150405"): the civil fields of the instant in the
value's location, year 4 digits, all other fields 2 digits. -/
def formatHimawari (t : GoTime) : String :=
  let total := t.unix + t.offset
  let days := total.ediv 86400
  let secs := total.emod 86400
  let ymd := civilFromDays days
  padInt 4 ymd.1 ++ "/" ++ padInt 2 ymd.2.1 ++ "/" ++ padInt 2 ymd.2.2 ++ "/" ++
    padInt 2 (secs.ediv 3600) ++ padInt 2 ((secs.emod 3600).ediv 60) ++ padInt 2 (secs.emod 60)

/-- ChunkUrl(t, level, width, x, y): fmt.Sprintf of the fixed template
with the timestamp rendered in UTC. -/
def ChunkUrl (t : GoTime) (level width x y : Int) : String :=
  "http://himawari8.nict.go.jp/img/D531106/" ++ toString level ++ "d/" ++ toString width ++
    "/" ++ formatHimawari t.utc ++ "_" ++ toString x ++ "_" ++ toString y ++ ".png"

theorem normLevel_of_pos {level : Int} (h : 1 ≤ level) : normLevel level = level := by
  unfold normLevel
  rw [if_neg (by omega)]

/-- A fixed concrete tile used by the concrete instantiations below. -/
def tile0 : GoImage := ⟨Width, Height, fun _ _ => 7⟩

/-- Fetcher that succeeds everywhere. -/
def okFetch : Int → Nat → Nat → Except Err GoImage := fun _ _ _ => .ok tile0

/-- Fetcher that fails exactly at coordinate (1, 0) with error 9. -/
def failFetch19 : Int → Nat → Nat → Except Err GoImage :=
  fun _ x y => if x = 1 ∧ y = 0 then .error 9 else .ok tile0

/-- Pool-level fetcher that succeeds everywhere. -/
def okFetchN : Nat → Nat → Except Err GoImage := fun _ _ => .ok tile0

/-- Pool-level fetcher that fails exactly at coordinate (0, 0) with error 7. -/
def poolFailFetch : Nat → Nat → Except Err GoImage :=
  fun x y => if x = 0 ∧ y = 0 then .error 7 else .ok tile0

/-- C8: ChunkUrl is a pure function of the instant alone (the location
offset is discarded by the UTC conversion before formatting), it always
emits the fixed template, and at a concrete known instant it produces the
expected concrete URL. -/
theorem claim8_chunkurl_template (u off1 off2 level width x y : Int) :
    ChunkUrl ⟨u, off1⟩ level width x y = ChunkUrl ⟨u, off2⟩ level width x y ∧
    ChunkUrl ⟨u, off1⟩ level width x y =
      "http://himawari8.nict.go.jp/img/D531106/" ++ toString level ++ "d/" ++ toString width ++
        "/" ++ formatHimawari ⟨u, 0⟩ ++ "_" ++ toString x ++ "_" ++ toString y ++ ".png" ∧
    ChunkUrl ⟨1444953600, 900⟩ 4 550 1 2 =
      "http://himawari8.nict.go.jp/img/D531106/4d/550/2015/10/16/000000_1_2.png" := by
  refine ⟨rfl, rfl, by decide⟩

/-- C3: worker-count normalization.  For level at least 2, a zero or
negative worker count behaves exactly like worker count 1, and a worker
count above level*level behaves exactly like worker count level*level. -/
theorem claim3_worker_normalization :
    (∀ (F : Int → Nat → Nat → Except Err GoImage) (level workers : Int) rt,
      2 ≤ level → workers ≤ 0 →
      (ImageRun F level workers rt ↔ ImageRun F level 1 rt)) ∧
    (∀ (F : Int → Nat → Nat → Except Err GoImage) (level workers : Int) rt,
      2 ≤ level → level * level < workers →
      (ImageRun F level workers rt ↔ ImageRun F level (level * level) rt)) := by
  constructor
  · intro F level workers rt h2 hw
    have hl : normLevel level = level := normLevel_of_pos (by omega)
    have hsq : 4 ≤ level * level := by nlinarith
    have hnw : normWorkers workers (normLevel level) = normWorkers 1 (normLevel level) := by
      rw [hl]
      unfold normWorkers
      rw [if_pos hw, if_neg (by omega), if_neg (by omega)]
    unfold ImageRun
    rw [hnw]
  · intro F level workers rt h2 hw
    have hl : normLevel level = level := normLevel_of_pos (by omega)
    have hsq : 4 ≤ level * level := by nlinarith
    have hnw : normWorkers workers (normLevel level) =
        normWorkers (level * level) (normLevel level) := by
      rw [hl]
      unfold normWorkers
      rw [if_neg (by omega), if_pos hw, if_neg (by omega), if_neg (by omega)]
    unfold ImageRun
    rw [hnw]

theorem claim3_witness :
    ((0 : Int) ≤ 0 ∧
      ∀ rt, ImageRun okFetch 2 0 rt ↔ ImageRun okFetch 2 1 rt) ∧
    ((2 : Int) * 2 < 5 ∧
      ∀ rt, ImageRun okFetch 2 5 rt ↔ ImageRun okFetch 2 (2 * 2) rt) :=
  ⟨⟨by decide, fun rt => (claim3_worker_normalization.1 okFetch 2 0 rt (by decide) (by decide))⟩,
   ⟨by decide, fun rt => (claim3_worker_normalization.2 okFetch 2 5 rt (by decide) (by decide))⟩⟩

/-- C9: a zero or negative level is silently normalized to DefaultLevel=4
rather than rejected, by Image and by LatestImage alike. -/
theorem claim9_level_normalization :
    (∀ (F : Int → Nat → Nat → Except Err GoImage) (level workers : Int) rt,
      level ≤ 0 → (ImageRun F level workers rt ↔ ImageRun F 4 workers rt)) ∧
    (∀ (G : Int → Int → Nat → Nat → Except Err GoImage) (latest : Except Err Int)
      (off : Int → Int) (level workers : Int) (ot : Bool) rt,
      level ≤ 0 →
      (LatestImageRun G latest off level workers ot rt ↔
        LatestImageRun G latest off 4 workers ot rt)) := by
  have hkey : ∀ level : Int, level ≤ 0 → normLevel level = normLevel 4 := by
    intro level h
    unfold normLevel
    rw [if_pos h, if_neg (by omega)]
    rfl
  constructor
  · intro F level workers rt h
    unfold ImageRun
    rw [hkey level h]
  · intro G latest off level workers ot rt h
    unfold LatestImageRun
    cases latest with
    | error e => exact Iff.rfl
    | ok t0 =>
      rw [hkey level h]

theorem claim9_witness :
    ((-3 : Int) ≤ 0 ∧
      (∀ rt, ImageRun okFetch (-3) 2 rt ↔ ImageRun okFetch 4 2 rt)) ∧
    (∀ rt, LatestImageRun (fun _ => okFetch) (.ok 0) id (-3) 2 true rt ↔
      LatestImageRun (fun _ => okFetch) (.ok 0) id 4 2 true rt) :=
  ⟨⟨by decide, fun rt => claim9_level_normalization.1 okFetch (-3) 2 rt (by decide)⟩,
   fun rt => claim9_level_normalization.2 (fun _ => okFetch) (.ok 0) id (-3) 2 true rt (by decide)⟩

/-- C7: for level 1, Image performs exactly one fetch, at (0, 0), and
returns the fetched tile itself unchanged (or the fetch error as-is),
with no canvas allocation or pooling. -/
theorem claim7_level_one (F : Int → Nat → Nat → Except Err GoImage) (workers : Int)
    (rt : (Option GoImage × Option Err) × List (Nat × Nat))
    (hrun : ImageRun F 1 workers rt) :
    rt.2 = [(0, 0)] ∧
    (∀ img, F 1 0 0 = .ok img → rt.1 = (some img, none)) ∧
    (∀ e, F 1 0 0 = .error e → rt.1 = (none, some e)) := by
  have h1 : normLevel 1 = 1 := by decide
  unfold ImageRun at hrun
  rw [h1, if_pos rfl] at hrun
  subst hrun
  refine ⟨rfl, ?_, ?_⟩
  · intro img h
    show (chunkPair (F 1 0 0), [((0 : Nat), (0 : Nat))]).1 = (some img, none)
    rw [show chunkPair (F 1 0 0) = (some img, none) by rw [h]; rfl]
  · intro e h
    show (chunkPair (F 1 0 0), [((0 : Nat), (0 : Nat))]).1 = (none, some e)
    rw [show chunkPair (F 1 0 0) = (none, some e) by rw [h]; rfl]

theorem claim7_witness :
    ImageRun okFetch 1 5 ((some tile0, none), [(0, 0)]) ∧
    ((((some tile0, none), [(0, 0)]) :
        (Option GoImage × Option Err) × List (Nat × Nat)).2 = [(0, 0)] ∧
      (∀ img, okFetch 1 0 0 = .ok img →
        (((some tile0, none), [(0, 0)]) :
          (Option GoImage × Option Err) × List (Nat × Nat)).1 = (some img, none)) ∧
      (∀ e, okFetch 1 0 0 = .error e →
        (((some tile0, none), [(0, 0)]) :
          (Option GoImage × Option Err) × List (Nat × Nat)).1 = (none, some e))) :=
  ⟨rfl, claim7_level_one okFetch 5 ((some tile0, none), [(0, 0)]) rfl⟩

/-- C6: with normalized worker count 1 and level at least 2, Image walks
the grid in row-major order fetching and blitting in turn; if every fetch
succeeds the whole grid is visited, and the first fetch failure makes it
return (nil, that error) at once, with the fetch log being exactly the
row-major prefix up to and including the failing coordinate. -/
theorem claim6_sequential (F : Int → Nat → Nat → Except Err GoImage)
    (level workers : Int) (rt : (Option GoImage × Option Err) × List (Nat × Nat))
    (hrun : ImageRun F level workers rt) (hlev : 2 ≤ level)
    (hw : normWorkers workers level = 1) :
    ((∀ c ∈ rowMajor level.toNat, ∃ img, F level c.1 c.2 = .ok img) →
      rt.2 = rowMajor level.toNat ∧ rt.1.2 = none) ∧
    (∀ e, rt.1.2 = some e →
      ∃ pre c post, rowMajor level.toNat = pre ++ c :: post ∧
        (∀ c' ∈ pre, ∃ img, F level c'.1 c'.2 = .ok img) ∧
        F level c.1 c.2 = .error e ∧ rt.1.1 = none ∧ rt.2 = pre ++ [c]) := by
  have hl : normLevel level = level := normLevel_of_pos (by omega)
  unfold ImageRun at hrun
  rw [hl, if_neg (by omega : ¬ level = 1), if_pos hw] at hrun
  subst hrun
  constructor
  · intro hall
    have hnone := seq_ok (F level) (rowMajor level.toNat)
      (newRGBA (level.toNat * Width) (level.toNat * Height)) [] hall
    obtain ⟨hlog, _⟩ := seq_none_spec (F level) (rowMajor level.toNat) _ []
      (nodup_rowMajor _) hnone
    exact ⟨by rw [hlog]; simp, hnone⟩
  · intro e he
    obtain ⟨pre, c, post, hsplit, hpre, herr, hnil, hlog⟩ :=
      seq_err_spec (F level) (rowMajor level.toNat) _ [] e he
    exact ⟨pre, c, post, hsplit, hpre, herr, hnil, by rw [hlog]; simp⟩

/-- Concrete sequential run at level 2 with the single failure at (1, 0). -/
def rt6 : (Option GoImage × Option Err) × List (Nat × Nat) :=
  seqGo (failFetch19 2) (rowMajor 2) (newRGBA (2 * Width) (2 * Height)) []

theorem claim6_witness :
    ImageRun failFetch19 2 1 rt6 ∧ (2 : Int) ≤ 2 ∧ normWorkers 1 2 = 1 ∧
    (((∀ c ∈ rowMajor (2 : Int).toNat, ∃ img, failFetch19 2 c.1 c.2 = .ok img) →
        rt6.2 = rowMajor (2 : Int).toNat ∧ rt6.1.2 = none) ∧
      (∀ e, rt6.1.2 = some e →
        ∃ pre c post, rowMajor (2 : Int).toNat = pre ++ c :: post ∧
          (∀ c' ∈ pre, ∃ img, failFetch19 2 c'.1 c'.2 = .ok img) ∧
          failFetch19 2 c.1 c.2 = .error e ∧ rt6.1.1 = none ∧ rt6.2 = pre ++ [c])) :=
  ⟨by
    unfold ImageRun
    rw [if_neg (by decide), if_pos (by decide)]
    rfl,
   by decide, by decide,
   claim6_sequential failFetch19 2 1 rt6
    (by
      unfold ImageRun
      rw [if_neg (by decide), if_pos (by decide)]
      rfl)
    (by decide) (by decide)⟩

/-- C5: every call to Image hands each grid coordinate to the fetcher at
most once (the ghost dispatch log is duplicate-free and within bounds),
and when no fetch fails the log is exactly the full grid in row-major
order, on every path. -/
theorem claim5_exactly_once (F : Int → Nat → Nat → Except Err GoImage)
    (level workers : Int) (rt : (Option GoImage × Option Err) × List (Nat × Nat))
    (hrun : ImageRun F level workers rt) (hlev : 1 ≤ level) :
    rt.2.Nodup ∧ (∀ c ∈ rt.2, c.1 < level.toNat ∧ c.2 < level.toNat) ∧
    ((∀ x y, x < level.toNat → y < level.toNat → ∃ img, F level x y = .ok img) →
      rt.2 = rowMajor level.toNat) := by
  have hl : normLevel level = level := normLevel_of_pos hlev
  unfold ImageRun at hrun
  rw [hl] at hrun
  by_cases h1 : level = 1
  · rw [if_pos h1] at hrun
    subst h1
    subst hrun
    refine ⟨by simp, ?_, fun _ => rfl⟩
    intro c hc
    simp only [List.mem_singleton] at hc
    subst hc
    exact ⟨by decide, by decide⟩
  · rw [if_neg h1] at hrun
    by_cases hw1 : normWorkers workers level = 1
    · rw [if_pos hw1] at hrun
      subst hrun
      have h12 : (seqGo (F level) (rowMajor level.toNat)
            (newRGBA (level.toNat * Width) (level.toNat * Height)) []).2.Nodup ∧
          ∀ c ∈ (seqGo (F level) (rowMajor level.toNat)
            (newRGBA (level.toNat * Width) (level.toNat * Height)) []).2,
            c ∈ rowMajor level.toNat := by
        cases hres : (seqGo (F level) (rowMajor level.toNat)
            (newRGBA (level.toNat * Width) (level.toNat * Height)) []).1.2 with
        | none =>
          obtain ⟨hlog, _⟩ := seq_none_spec (F level) (rowMajor level.toNat) _ []
            (nodup_rowMajor _) hres
          rw [hlog]
          refine ⟨by simpa using nodup_rowMajor _, ?_⟩
          intro c hc
          simpa using hc
        | some e =>
          obtain ⟨pre, c, post, hsplit, _, _, _, hlog⟩ :=
            seq_err_spec (F level) (rowMajor level.toNat) _ [] e hres
          have hsub : (pre ++ [c]).Sublist (pre ++ c :: post) :=
            List.Sublist.append_left (List.cons_sublist_cons.mpr (List.nil_sublist post)) pre
          have hnd : (pre ++ [c]).Nodup := by
            refine List.Nodup.sublist hsub ?_
            rw [← hsplit]
            exact nodup_rowMajor _
          rw [hlog]
          simp only [List.nil_append]
          refine ⟨hnd, ?_⟩
          intro c' hc'
          rw [hsplit]
          exact hsub.subset hc'
      refine ⟨h12.1, fun c hc => mem_rowMajor.mp (h12.2 c hc), ?_⟩
      intro hall
      have hall' : ∀ c ∈ rowMajor level.toNat, ∃ img, (F level) c.1 c.2 = .ok img := by
        intro c hc
        obtain ⟨hx, hy⟩ := mem_rowMajor.mp hc
        exact hall c.1 c.2 hx hy
      have hnone := seq_ok (F level) (rowMajor level.toNat)
        (newRGBA (level.toNat * Width) (level.toNat * Height)) [] hall'
      obtain ⟨hlog, _⟩ := seq_none_spec (F level) (rowMajor level.toNat) _ []
        (nodup_rowMajor _) hnone
      rw [hlog]
      simp
    · rw [if_neg hw1] at hrun
      obtain ⟨s, hre, hph, hcv, hdi⟩ := hrun
      have inv := reach_inv _ _ _ _ hre
      have hnd : (s.dispatched ++ s.toSend).Nodup := by
        rw [inv.split]
        exact nodup_rowMajor _
      have hmemd : ∀ c ∈ s.dispatched, c ∈ rowMajor level.toNat := by
        intro c hc
        exact inv.split ▸ List.mem_append_left _ hc
      refine ⟨?_, ?_, ?_⟩
      · rw [hdi]
        exact (List.nodup_append.mp hnd).1
      · intro c hc
        rw [hdi] at hc
        exact mem_rowMajor.mp (hmemd c hc)
      · intro hall
        cases hcase : rt.1.2 with
        | some e =>
          rw [hcase] at hph
          obtain ⟨_, c, hcm, hce⟩ := inv.retSome e hph
          obtain ⟨hx, hy⟩ := mem_rowMajor.mp hcm
          obtain ⟨img, himg⟩ := hall c.1 c.2 hx hy
          rw [himg] at hce
          cases hce
        | none =>
          rw [hcase] at hph
          obtain ⟨hts, _⟩ := inv.retNone hph
          rw [hdi]
          have hsp := inv.split
          rw [hts] at hsp
          simpa using hsp

/-- Concrete successful sequential run at level 2. -/
def rt5 : (Option GoImage × Option Err) × List (Nat × Nat) :=
  seqGo (okFetch 2) (rowMajor 2) (newRGBA (2 * Width) (2 * Height)) []

theorem claim5_witness :
    ImageRun okFetch 2 1 rt5 ∧ (1 : Int) ≤ 2 ∧
    (rt5.2.Nodup ∧ (∀ c ∈ rt5.2, c.1 < (2 : Int).toNat ∧ c.2 < (2 : Int).toNat) ∧
      ((∀ x y, x < (2 : Int).toNat → y < (2 : Int).toNat → ∃ img, okFetch 2 x y = .ok img) →
        rt5.2 = rowMajor (2 : Int).toNat)) :=
  ⟨by
    unfold ImageRun
    rw [if_neg (by decide), if_pos (by decide)]
    rfl,
   by decide,
   claim5_exactly_once okFetch 2 1 rt5
    (by
      unfold ImageRun
      rw [if_neg (by decide), if_pos (by decide)]
      rfl)
    (by decide)⟩

/-- C4: if exactly one coordinate fails deterministically, Image returns
precisely that coordinate's error, on the degenerate, sequential and
pooled paths alike; and on the pooled path, whichever error is returned is
the first one any worker reported (the head of the error-channel log),
later failures being discarded. -/
theorem claim4_first_error :
    (∀ (F : Int → Nat → Nat → Except Err GoImage) (level workers : Int)
      (rt : (Option GoImage × Option Err) × List (Nat × Nat))
      (x0 y0 : Nat) (e0 : Err),
      ImageRun F level workers rt → 1 ≤ level →
      x0 < level.toNat → y0 < level.toNat →
      F level x0 y0 = .error e0 →
      (∀ x y, x < level.toNat → y < level.toNat → ((x, y) : Nat × Nat) ≠ (x0, y0) →
        ∃ img, F level x y = .ok img) →
      rt.1.2 = some e0) ∧
    (∀ (f : Nat → Nat → Except Err GoImage) (n w : Nat) (s : PoolState) (e : Err),
      Reach f n w s → s.phase = .returned (some e) → s.errLog.head? = some e) := by
  constructor
  · intro F level workers rt x0 y0 e0 hrun hlev hx0 hy0 hfail hok
    have hl : normLevel level = level := normLevel_of_pos hlev
    unfold ImageRun at hrun
    rw [hl] at hrun
    by_cases h1 : level = 1
    · rw [if_pos h1] at hrun
      subst h1
      have hone : (1 : Int).toNat = 1 := rfl
      rw [hone] at hx0 hy0
      have hx : x0 = 0 := by omega
      have hy : y0 = 0 := by omega
      subst hx
      subst hy
      rw [hrun]
      show (chunkPair (F 1 0 0)).2 = some e0
      rw [hfail]
      rfl
    · rw [if_neg h1] at hrun
      by_cases hw1 : normWorkers workers level = 1
      · rw [if_pos hw1] at hrun
        have hmem : ((x0, y0) : Nat × Nat) ∈ rowMajor level.toNat :=
          mem_rowMajor.mpr ⟨hx0, hy0⟩
        have hok' : ∀ c ∈ rowMajor level.toNat, c ≠ ((x0, y0) : Nat × Nat) →
            ∃ img, (F level) c.1 c.2 = .ok img := by
          intro c hc hne
          obtain ⟨hcx, hcy⟩ := mem_rowMajor.mp hc
          refine hok c.1 c.2 hcx hcy ?_
          rw [Prod.mk.eta]
          exact hne
        have hres := seq_single_err (F level) (rowMajor level.toNat)
          (newRGBA (level.toNat * Width) (level.toNat * Height)) [] (x0, y0) e0
          hmem hfail hok'
        rw [hrun]
        rw [hres]
      · rw [if_neg hw1] at hrun
        obtain ⟨s, hre, hph, _, _⟩ := hrun
        have inv := reach_inv _ _ _ _ hre
        cases hcase : rt.1.2 with
        | none =>
          rw [hcase] at hph
          obtain ⟨_, hfull⟩ := inv.retNone hph
          obtain ⟨img, himg, _⟩ := hfull (x0, y0) (mem_rowMajor.mpr ⟨hx0, hy0⟩)
          have himg' : F level x0 y0 = .ok img := himg
          exact Except.noConfusion (hfail.symm.trans himg')
        | some e =>
          rw [hcase] at hph
          obtain ⟨_, c, hcm, hce⟩ := inv.retSome e hph
          by_cases hcc : c = ((x0, y0) : Nat × Nat)
          · subst hcc
            have hce' : F level x0 y0 = .error e := hce
            have h2 : e0 = e := by
              injection hfail.symm.trans hce'
            rw [h2]
          · obtain ⟨hcx, hcy⟩ := mem_rowMajor.mp hcm
            obtain ⟨img, himg⟩ := hok c.1 c.2 hcx hcy (by rw [Prod.mk.eta]; exact hcc)
            exact Except.noConfusion (himg.symm.trans hce)
  · intro f n w s e hre hph
    exact ((reach_inv f n w s hre).retSome e hph).1

theorem claim4_witness :
    ImageRun failFetch19 2 1 rt6 ∧
    failFetch19 2 1 0 = .error 9 ∧
    (∀ x y, x < (2 : Int).toNat → y < (2 : Int).toNat → ((x, y) : Nat × Nat) ≠ (1, 0) →
      ∃ img, failFetch19 2 x y = .ok img) ∧
    rt6.1.2 = some 9 := by
  have hok : ∀ x y, x < (2 : Int).toNat → y < (2 : Int).toNat →
      ((x, y) : Nat × Nat) ≠ (1, 0) → ∃ img, failFetch19 2 x y = .ok img := by
    intro x y _ _ hne
    refine ⟨tile0, ?_⟩
    have hcond : ¬(x = 1 ∧ y = 0) := by
      rintro ⟨h1, h2⟩
      exact hne (by rw [h1, h2])
    unfold failFetch19
    rw [if_neg hcond]
  have hrun : ImageRun failFetch19 2 1 rt6 := by
    unfold ImageRun
    rw [if_neg (by decide), if_pos (by decide)]
    rfl
  exact ⟨hrun, rfl, hok,
    claim4_first_error.1 failFetch19 2 1 rt6 1 0 9 hrun (by decide) (by decide) (by decide)
      rfl hok⟩

/-- C1: whenever Image returns a nil error, the returned raster has exact
size (level*Width) x (level*Height) and every grid rectangle holds exactly
the successfully fetched tile of its coordinate (for level 1 the raster is
the single tile itself, whose size is guaranteed by the TileSource
contract). -/
theorem claim1_success_canvas (F : Int → Nat → Nat → Except Err GoImage)
    (level workers : Int) (rt : (Option GoImage × Option Err) × List (Nat × Nat))
    (hrun : ImageRun F level workers rt) (hlev : 1 ≤ level)
    (hT : ∀ (l : Int) (x y : Nat) img, F l x y = .ok img →
      img.width = Width ∧ img.height = Height)
    (hok : rt.1.2 = none) :
    ∃ cv, rt.1.1 = some cv ∧
      cv.width = level.toNat * Width ∧ cv.height = level.toNat * Height ∧
      ∀ x y, x < level.toNat → y < level.toNat →
        ∃ img, F level x y = .ok img ∧
          ∀ px py, px < Width → py < Height →
            cv.pix (x * Width + px) (y * Height + py) = img.pix px py := by
  have hl : normLevel level = level := normLevel_of_pos hlev
  unfold ImageRun at hrun
  rw [hl] at hrun
  by_cases h1 : level = 1
  · rw [if_pos h1] at hrun
    subst h1
    cases hF : F 1 0 0 with
    | error e =>
      exfalso
      rw [hrun] at hok
      have hok' : (chunkPair (F 1 0 0)).2 = none := hok
      rw [hF] at hok'
      cases hok'
    | ok img =>
      refine ⟨img, ?_, ?_, ?_, ?_⟩
      · rw [hrun]
        show (chunkPair (F 1 0 0)).1 = some img
        rw [hF]
        rfl
      · simpa using (hT 1 0 0 img hF).1
      · simpa using (hT 1 0 0 img hF).2
      · intro x y hx hy
        have hone : (1 : Int).toNat = 1 := rfl
        rw [hone] at hx hy
        have hx0 : x = 0 := by omega
        have hy0 : y = 0 := by omega
        subst hx0
        subst hy0
        refine ⟨img, hF, ?_⟩
        intro px py _ _
        simp
  · rw [if_neg h1] at hrun
    by_cases hw1 : normWorkers workers level = 1
    · rw [if_pos hw1] at hrun
      rw [hrun] at hok ⊢
      obtain ⟨_, cv, hcv, hwid, hhei, hcells, _⟩ :=
        seq_none_spec (F level) (rowMajor level.toNat)
          (newRGBA (level.toNat * Width) (level.toNat * Height)) []
          (nodup_rowMajor _) hok
      refine ⟨cv, hcv, hwid, hhei, ?_⟩
      intro x y hx hy
      obtain ⟨img, himg, hcell⟩ := hcells (x, y) (mem_rowMajor.mpr ⟨hx, hy⟩)
      exact ⟨img, himg, fun px py hpx hpy => hcell px py hpx hpy⟩
    · rw [if_neg hw1] at hrun
      obtain ⟨s, hre, hph, hcv, _⟩ := hrun
      have inv := reach_inv _ _ _ _ hre
      rw [hok] at hph
      obtain ⟨_, hfull⟩ := inv.retNone hph
      refine ⟨s.canvas, hcv, inv.dims.1, inv.dims.2, ?_⟩
      intro x y hx hy
      obtain ⟨img, himg, hcell⟩ := hfull (x, y) (mem_rowMajor.mpr ⟨hx, hy⟩)
      exact ⟨img, himg, fun px py hpx hpy => hcell px py hpx hpy⟩

theorem claim1_witness :
    ImageRun okFetch 1 3 ((some tile0, none), [(0, 0)]) ∧
    (∀ (l : Int) (x y : Nat) img, okFetch l x y = .ok img →
      img.width = Width ∧ img.height = Height) ∧
    (∃ cv, (((some tile0, none), [(0, 0)]) :
        (Option GoImage × Option Err) × List (Nat × Nat)).1.1 = some cv ∧
      cv.width = (1 : Int).toNat * Width ∧ cv.height = (1 : Int).toNat * Height ∧
      ∀ x y, x < (1 : Int).toNat → y < (1 : Int).toNat →
        ∃ img, okFetch 1 x y = .ok img ∧
          ∀ px py, px < Width → py < Height →
            cv.pix (x * Width + px) (y * Height + py) = img.pix px py) := by
  have hT : ∀ (l : Int) (x y : Nat) img, okFetch l x y = .ok img →
      img.width = Width ∧ img.height = Height := by
    intro l x y img h
    injection h with h
    rw [← h]
    exact ⟨rfl, rfl⟩
  have hrun : ImageRun okFetch 1 3 ((some tile0, none), [(0, 0)]) := by
    unfold ImageRun
    rw [if_pos (by decide)]
    rfl
  exact ⟨hrun, hT,
    claim1_success_canvas okFetch 1 3 ((some tile0, none), [(0, 0)]) hrun (by decide) hT rfl⟩

/-- Pooled run at level 2 with two workers where worker 0 gets (0, 0) and
fails while worker 1 is still fetching (1, 0): the producer observes the
error and returns at once, leaving worker 1 in flight. -/
def c2s0 : PoolState := poolInit 2 2

def c2s1 : PoolState :=
  { c2s0 with
    toSend := [(1, 0), (0, 1), (1, 1)],
    workers := Function.update c2s0.workers 0 (.busy (0, 0)),
    dispatched := [(0, 0)] }

def c2s2 : PoolState :=
  { c2s1 with
    toSend := [(0, 1), (1, 1)],
    workers := Function.update c2s1.workers 1 (.busy (1, 0)),
    dispatched := [(0, 0), (1, 0)] }

def c2s3 : PoolState :=
  { c2s2 with
    errc := [7], errLog := [7],
    workers := Function.update c2s2.workers 0 .done }

def c2s4 : PoolState :=
  { c2s3 with
    errc := [], closed := true, phase := .returned (some 7) }

theorem reach_c2s4 : Reach poolFailFetch 2 2 c2s4 := by
  have h1 : Step poolFailFetch c2s0 c2s1 :=
    Step.send c2s0 (0, 0) [(1, 0), (0, 1), (1, 1)] 0 rfl rfl rfl
  have h2 : Step poolFailFetch c2s1 c2s2 :=
    Step.send c2s1 (1, 0) [(0, 1), (1, 1)] 1 rfl rfl rfl
  have h3 : Step poolFailFetch c2s2 c2s3 :=
    Step.fetchErr c2s2 0 (0, 0) 7 rfl rfl
  have h4 : Step poolFailFetch c2s3 c2s4 :=
    Step.earlyExit c2s3 (0, 1) [(1, 1)] 7 [] rfl rfl rfl
  exact Relation.ReflTransGen.tail (Relation.ReflTransGen.tail
    (Relation.ReflTransGen.tail (Relation.ReflTransGen.tail
      Relation.ReflTransGen.refl h1) h2) h3) h4

/-- C2 counterexample: a reachable state of the pooled path in which the
call has already returned (with the error) while worker 1 is still busy
fetching (1, 0) — on the early-exit path the pool is not joined before
returning, so a worker outlives the call. -/
theorem claim2_counterexample :
    Reach poolFailFetch 2 2 c2s4 ∧ c2s4.phase = Phase.returned (some 7) ∧
    c2s4.workers 1 = WStatus.busy (1, 0) ∧ ¬ (∀ i, c2s4.workers i = WStatus.done) :=
  ⟨reach_c2s4, rfl, rfl,
    fun hall => WStatus.noConfusion
      ((rfl : c2s4.workers 1 = WStatus.busy (1, 0)).symm.trans (hall 1))⟩

/-- C2 amended: on the normal-completion path (the whole grid dispatched,
so the producer reached wg.Wait) every worker has finished before Image
returns; on the fail-fast early-exit path Image returns without joining
the pool and in-flight workers may outlive the call. -/
theorem claim2_join_on_completion (f : Nat → Nat → Except Err GoImage) (n w : Nat)
    (s : PoolState) (res : Option Err) (hre : Reach f n w s)
    (hph : s.phase = .returned res) (hts : s.toSend = []) :
    ∀ i, s.workers i = .done :=
  (reach_inv f n w s hre).retDone res hph hts

/-- Pooled run at level 2 with two workers where every fetch succeeds:
worker 0 processes all four tiles, the queue is drained and closed, both
workers exit, and the producer joins the pool and returns. -/
def js0 : PoolState := poolInit 2 2

def js1 : PoolState :=
  { js0 with
    toSend := [(1, 0), (0, 1), (1, 1)],
    workers := Function.update js0.workers 0 (.busy (0, 0)),
    dispatched := [(0, 0)] }

def js2 : PoolState :=
  { js1 with
    canvas := drawTile js1.canvas 0 0 tile0,
    workers := Function.update js1.workers 0 .idle }

def js3 : PoolState :=
  { js2 with
    toSend := [(0, 1), (1, 1)],
    workers := Function.update js2.workers 0 (.busy (1, 0)),
    dispatched := [(0, 0), (1, 0)] }

def js4 : PoolState :=
  { js3 with
    canvas := drawTile js3.canvas 1 0 tile0,
    workers := Function.update js3.workers 0 .idle }

def js5 : PoolState :=
  { js4 with
    toSend := [(1, 1)],
    workers := Function.update js4.workers 0 (.busy (0, 1)),
    dispatched := [(0, 0), (1, 0), (0, 1)] }

def js6 : PoolState :=
  { js5 with
    canvas := drawTile js5.canvas 0 1 tile0,
    workers := Function.update js5.workers 0 .idle }

def js7 : PoolState :=
  { js6 with
    toSend := [],
    workers := Function.update js6.workers 0 (.busy (1, 1)),
    dispatched := [(0, 0), (1, 0), (0, 1), (1, 1)] }

def js8 : PoolState :=
  { js7 with
    canvas := drawTile js7.canvas 1 1 tile0,
    workers := Function.update js7.workers 0 .idle }

def js9 : PoolState := { js8 with
    closed := true, phase := .joining }

def js10 : PoolState := { js9 with
    workers := Function.update js9.workers 0 .done }

def js11 : PoolState := { js10 with
    workers := Function.update js10.workers 1 .done }

def js12 : PoolState := { js11 with
    phase := .returned none }

theorem reach_js12 : Reach okFetchN 2 2 js12 := by
  have h1 : Step okFetchN js0 js1 :=
    Step.send js0 (0, 0) [(1, 0), (0, 1), (1, 1)] 0 rfl rfl rfl
  have h2 : Step okFetchN js1 js2 := Step.fetchOk js1 0 (0, 0) tile0 rfl rfl
  have h3 : Step okFetchN js2 js3 :=
    Step.send js2 (1, 0) [(0, 1), (1, 1)] 0 rfl rfl rfl
  have h4 : Step okFetchN js3 js4 := Step.fetchOk js3 0 (1, 0) tile0 rfl rfl
  have h5 : Step okFetchN js4 js5 := Step.send js4 (0, 1) [(1, 1)] 0 rfl rfl rfl
  have h6 : Step okFetchN js5 js6 := Step.fetchOk js5 0 (0, 1) tile0 rfl rfl
  have h7 : Step okFetchN js6 js7 := Step.send js6 (1, 1) [] 0 rfl rfl rfl
  have h8 : Step okFetchN js7 js8 := Step.fetchOk js7 0 (1, 1) tile0 rfl rfl
  have h9 : Step okFetchN js8 js9 := Step.closeChunks js8 rfl rfl
  have h10 : Step okFetchN js9 js10 := Step.exitClosed js9 0 rfl rfl
  have h11 : Step okFetchN js10 js11 := Step.exitClosed js10 1 rfl rfl
  have h12 : Step okFetchN js11 js12 :=
    Step.joinReturn js11 rfl (fun i =>
      match i with
      | 0 => rfl
      | 1 => rfl
      | (_ + 2) => rfl)
  exact Relation.ReflTransGen.tail (Relation.ReflTransGen.tail
    (Relation.ReflTransGen.tail (Relation.ReflTransGen.tail
      (Relation.ReflTransGen.tail (Relation.ReflTransGen.tail
        (Relation.ReflTransGen.tail (Relation.ReflTransGen.tail
          (Relation.ReflTransGen.tail (Relation.ReflTransGen.tail
            (Relation.ReflTransGen.tail (Relation.ReflTransGen.tail
              Relation.ReflTransGen.refl h1) h2) h3) h4) h5) h6) h7) h8) h9) h10) h11) h12

theorem claim2_witness :
    Reach okFetchN 2 2 js12 ∧ js12.phase = Phase.returned none ∧ js12.toSend = [] ∧
    (∀ i, js12.workers i = WStatus.done) :=
  ⟨reach_js12, rfl, rfl,
    claim2_join_on_completion okFetchN 2 2 js12 none reach_js12 rfl rfl⟩

/-- C10: the two error paths differ in the canvas they hand back: a
sequential fetch failure returns a nil canvas with the error, while the
pooled path always returns the (possibly partial) allocated canvas, and
on the early-exit path it does so together with an error. -/
theorem claim10_error_canvas :
    (∀ (f : Nat → Nat → Except Err GoImage) (coords : List (Nat × Nat)) (cv : GoImage)
      (log : List (Nat × Nat)),
      ((seqGo f coords cv log).1.1 = none ↔ ∃ e, (seqGo f coords cv log).1.2 = some e)) ∧
    (∀ (f : Nat → Nat → Except Err GoImage) (n w : Nat) (s : PoolState) (res : Option Err),
      Reach f n w s → s.phase = .returned res → s.toSend ≠ [] → ∃ e, res = some e) ∧
    (∀ (F : Int → Nat → Nat → Except Err GoImage) (level workers : Int)
      (rt : (Option GoImage × Option Err) × List (Nat × Nat)),
      ImageRun F level workers rt → 2 ≤ level → normWorkers workers level ≠ 1 →
      ∃ cv, rt.1.1 = some cv) := by
  refine ⟨?_, ?_, ?_⟩
  · intro f coords
    induction coords with
    | nil => intro cv log; simp [seqGo]
    | cons c rest ih =>
      intro cv log
      cases himg : f c.1 c.2 with
      | error e => simp [seqGo, himg]
      | ok img =>
        simp only [seqGo, himg]
        exact ih _ _
  · intro f n w s res hre hph hne
    have hsome := (reach_inv f n w s hre).retEarly res hph hne
    cases res with
    | none => exact absurd hsome (by simp)
    | some e => exact ⟨e, rfl⟩
  · intro F level workers rt hrun hlev hw1
    have hl : normLevel level = level := normLevel_of_pos (by omega)
    unfold ImageRun at hrun
    rw [hl, if_neg (by omega : ¬ level = 1), if_neg hw1] at hrun
    obtain ⟨s, _, _, hcv, _⟩ := hrun
    exact ⟨s.canvas, hcv⟩

theorem claim10_witness :
    c2s4.phase = Phase.returned (some 7) ∧ c2s4.toSend ≠ [] ∧
    (∃ e, (some 7 : Option Err) = some e) :=
  ⟨rfl, by decide,
    claim10_error_canvas.2.1 poolFailFetch 2 2 c2s4 (some 7) reach_c2s4 rfl (by decide)⟩

end Himawari
